import Mathlib

/-!
Verification of the EatBot reservation engine: a shallow embedding of the
domain model (`eatbot/domain`), the record repository
(`eatbot/services/repositories.py`) and the booking service
(`eatbot/services/booking.py`), with theorems settling the specified
properties of the meal-plan decider, the reservation write protocol, the
edit-cutoff rule and the fee-archive schedule.
-/

namespace EatBot

/-- Calendar date (proleptic Gregorian), mirroring Python `datetime.date`. -/
structure Date where
  year : Nat
  month : Nat
  day : Nat
deriving DecidableEq

/-- Python `date` comparison: lexicographic on (year, month, day). -/
def dateLt (a b : Date) : Bool :=
  if a.year = b.year then
    if a.month = b.month then decide (a.day < b.day)
    else decide (a.month < b.month)
  else decide (a.year < b.year)

/-- Python `date` comparison: lexicographic on (year, month, day). -/
def dateLe (a b : Date) : Bool :=
  if a.year = b.year then
    if a.month = b.month then decide (a.day ≤ b.day)
    else decide (a.month < b.month)
  else decide (a.year < b.year)

theorem dateLt_irrefl (d : Date) : dateLt d d = false := by
  simp [dateLt]

theorem dateLt_asymm {a b : Date} (h : dateLt a b = true) : dateLt b a = false := by
  unfold dateLt at *
  split_ifs at * <;> simp_all <;> omega

theorem dateLe_of_not_dateLt {a b : Date} (h : dateLt b a = false) : dateLe a b = true := by
  unfold dateLt at h
  unfold dateLe
  split_ifs at * <;> simp_all <;> omega

/-- `isleap` of the Gregorian calendar (Python `calendar.isleap`). -/
def isLeapYear (y : Nat) : Bool :=
  (y % 4 == 0 && y % 100 != 0) || y % 400 == 0

/-- Number of days in a month (Python `calendar.monthrange(y, m)[1]`). -/
def daysInMonth (y m : Nat) : Nat :=
  if m = 2 then (if isLeapYear y then 29 else 28)
  else if m = 4 ∨ m = 6 ∨ m = 9 ∨ m = 11 then 30
  else 31

/-- Days before the first of month `m` within year `y`. -/
def daysBeforeMonth (y m : Nat) : Nat :=
  (List.range (m - 1)).foldl (fun acc i => acc + daysInMonth y (i + 1)) 0

/-- Python `date.toordinal`: day count with 0001-01-01 ↦ 1. -/
def Date.toOrdinal (d : Date) : Nat :=
  let py := d.year - 1
  365 * py + py / 4 - py / 100 + py / 400 + daysBeforeMonth d.year d.month + d.day

/-- Python `date.weekday`: Monday = 0, ..., Sunday = 6. -/
def Date.weekday (d : Date) : Nat :=
  (d.toOrdinal + 6) % 7

/-- `Meal` enum from `eatbot/domain/models.py`. -/
inductive Meal
  | LUNCH
  | DINNER
  | CANCELLED
deriving DecidableEq

/-- The `.value` of the `Meal` `StrEnum`. -/
def Meal.value : Meal → String
  | .LUNCH => "午餐"
  | .DINNER => "晚餐"
  | .CANCELLED => "取消预约"

/-- `parse_meals` from `eatbot/domain/decision.py`: a non-list cell yields the
empty set, otherwise every element equal to a meal value is collected. -/
def parseMeals (raw : Option (List String)) : Finset Meal :=
  match raw with
  | none => ∅
  | some vs =>
    vs.foldl
      (fun acc v =>
        if v = Meal.LUNCH.value then insert Meal.LUNCH acc
        else if v = Meal.DINNER.value then insert Meal.DINNER acc
        else acc)
      ∅

/-- `MealScheduleRule` from `eatbot/domain/models.py`. -/
structure MealScheduleRule where
  start_date : Date
  end_date : Date
  meals : Finset Meal
  remark : String
deriving DecidableEq

/-- `DailyMealPlan` from `eatbot/domain/models.py`. -/
structure DailyMealPlan where
  date : Date
  meals : Finset Meal
deriving DecidableEq

/-- The literal set `{Meal.LUNCH, Meal.DINNER}` used by the decider's filter. -/
def allowedTwo : Finset Meal := {Meal.LUNCH, Meal.DINNER}

/-- Match test of `MealPlanDecider.decide`:
`rule.start_date <= target_date <= rule.end_date`. -/
def ruleMatches (target : Date) (r : MealScheduleRule) : Bool :=
  dateLe r.start_date target && dateLe target r.end_date

/-- `MealPlanDecider.decide` from `eatbot/domain/decision.py`: filter matching
rules; if any match, each match in order overwrites the running result with
its meal set restricted to {LUNCH, DINNER}; otherwise weekends resolve to the
empty set and weekdays to {LUNCH, DINNER}. -/
def MealPlanDecider.decide (target : Date) (rules : List MealScheduleRule) : DailyMealPlan :=
  let matched := rules.filter (ruleMatches target)
  if matched.isEmpty then
    if target.weekday ≥ 5 then ⟨target, ∅⟩
    else ⟨target, {Meal.LUNCH, Meal.DINNER}⟩
  else
    let effective := matched.foldl (fun _ r => r.meals.filter (fun m => m ∈ allowedTwo)) ∅
    ⟨target, effective⟩

theorem foldl_overwrite_eq_getLast {α β : Type} (f : α → β) :
    ∀ (l : List α) (h : l ≠ []) (init : β),
      l.foldl (fun _ r => f r) init = f (l.getLast h)
  | [], h, _ => absurd rfl h
  | [a], _, _ => rfl
  | a :: b :: tl, _, init => by
    have ih := foldl_overwrite_eq_getLast f (b :: tl) (by simp) (f a)
    simpa [List.foldl, List.getLast] using ih

theorem decide_meals_of_matched_nonempty (d : Date) (rules : List MealScheduleRule)
    (hm : rules.filter (ruleMatches d) ≠ []) :
    (MealPlanDecider.decide d rules).meals
      = ((rules.filter (ruleMatches d)).getLast hm).meals ∩ allowedTwo := by
  unfold MealPlanDecider.decide
  have hne : (rules.filter (ruleMatches d)).isEmpty = false := by
    simpa [List.isEmpty_iff] using hm
  simp only [hne, Bool.false_eq_true, if_false]
  rw [foldl_overwrite_eq_getLast (fun r => r.meals.filter (fun m => m ∈ allowedTwo)) _ hm]
  exact Finset.filter_mem_eq_inter

/-- C5: when at least one rule's inclusive range contains the date, `decide`
returns exactly the last matching rule's meal set restricted to
{LUNCH, DINNER} (order-sensitive, not a union); with no matching rule it
returns {LUNCH, DINNER} on weekdays and the empty set on Saturday/Sunday. -/
theorem decide_last_match_wins_and_weekday_default
    (d : Date) (rules : List MealScheduleRule) (R1 R2 : MealScheduleRule)
    (hm : rules.filter (ruleMatches d) ≠ [])
    (h1 : ruleMatches d R1 = true) (h2 : ruleMatches d R2 = true) :
    (MealPlanDecider.decide d rules).meals
        = ((rules.filter (ruleMatches d)).getLast hm).meals ∩ allowedTwo
    ∧ (MealPlanDecider.decide d [R1, R2]).meals = R2.meals ∩ allowedTwo
    ∧ (MealPlanDecider.decide d [R2, R1]).meals = R1.meals ∩ allowedTwo
    ∧ (∀ (d2 : Date) (rules2 : List MealScheduleRule),
        rules2.filter (ruleMatches d2) = [] →
        (MealPlanDecider.decide d2 rules2).meals
          = if d2.weekday ≥ 5 then (∅ : Finset Meal) else {Meal.LUNCH, Meal.DINNER}) := by
  refine ⟨decide_meals_of_matched_nonempty d rules hm, ?_, ?_, ?_⟩
  · have hfilter : [R1, R2].filter (ruleMatches d) = [R1, R2] := by
      simp [List.filter, h1, h2]
    have := decide_meals_of_matched_nonempty d [R1, R2] (by simp [hfilter])
    simpa [hfilter] using this
  · have hfilter : [R2, R1].filter (ruleMatches d) = [R2, R1] := by
      simp [List.filter, h1, h2]
    have := decide_meals_of_matched_nonempty d [R2, R1] (by simp [hfilter])
    simpa [hfilter] using this
  · intro d2 rules2 hempty
    unfold MealPlanDecider.decide
    have hne : (rules2.filter (ruleMatches d2)).isEmpty = true := by
      simp [hempty]
    simp only [hne, if_true]
    split_ifs <;> rfl

/-- Schedule rule used by the concrete decider scenarios: all of February. -/
def ruleFebAll : MealScheduleRule := ⟨⟨2026, 2, 1⟩, ⟨2026, 2, 28⟩, {Meal.LUNCH}, ""⟩

/-- Schedule rule used by the concrete decider scenarios: mid February. -/
def ruleFebMid : MealScheduleRule := ⟨⟨2026, 2, 10⟩, ⟨2026, 2, 14⟩, {Meal.DINNER}, ""⟩

/-- Witness for C5 at a concrete date with two overlapping matching rules. -/
theorem decide_last_match_wins_witness :
    ruleMatches ⟨2026, 2, 12⟩ ruleFebAll = true
    ∧ (MealPlanDecider.decide ⟨2026, 2, 12⟩ [ruleFebAll, ruleFebMid]).meals
        = ruleFebMid.meals ∩ allowedTwo :=
  ⟨by decide,
    (decide_last_match_wins_and_weekday_default ⟨2026, 2, 12⟩ [ruleFebAll, ruleFebMid]
      ruleFebAll ruleFebMid (by decide) (by decide) (by decide)).2.1⟩

/-- Per-instance cutoff configuration (`ScheduleConfig` from `eatbot/config.py`),
with the two cutoff times-of-day in seconds (`lunch_cutoff_obj`,
`dinner_cutoff_obj`). -/
structure ScheduleConfig where
  lunchCutoff : Nat
  dinnerCutoff : Nat
deriving DecidableEq

/-- A timezone-localized instant, as `BookingService._now()` returns:
a date plus a time-of-day in seconds. -/
structure DateTime where
  date : Date
  timeOfDay : Nat
deriving DecidableEq

/-- `BookingService._is_editable` from `eatbot/services/booking.py`. -/
def isEditable (cfg : ScheduleConfig) (now : DateTime) (targetDate : Date) (meal : Meal) : Bool :=
  if dateLt now.date targetDate then true
  else if dateLt targetDate now.date then false
  else if meal = Meal.LUNCH then decide (now.timeOfDay < cfg.lunchCutoff)
  else if meal = Meal.DINNER then decide (now.timeOfDay < cfg.dinnerCutoff)
  else false

/-- C6: future dates are always editable, past dates never; on today itself,
LUNCH is editable iff the current time-of-day is strictly before the lunch
cutoff and DINNER iff strictly before the dinner cutoff, so a time equal to
the cutoff is rejected and one second before it is accepted. -/
theorem isEditable_cutoff_spec (cfg : ScheduleConfig) (now : DateTime) (target : Date) :
    (dateLt now.date target = true → ∀ meal, isEditable cfg now target meal = true)
    ∧ (dateLt target now.date = true → ∀ meal, isEditable cfg now target meal = false)
    ∧ (target = now.date →
        (isEditable cfg now target Meal.LUNCH = true ↔ now.timeOfDay < cfg.lunchCutoff)
        ∧ (isEditable cfg now target Meal.DINNER = true ↔ now.timeOfDay < cfg.dinnerCutoff)
        ∧ (now.timeOfDay = cfg.lunchCutoff → isEditable cfg now target Meal.LUNCH = false)
        ∧ (now.timeOfDay + 1 = cfg.lunchCutoff → isEditable cfg now target Meal.LUNCH = true)
        ∧ (now.timeOfDay = cfg.dinnerCutoff → isEditable cfg now target Meal.DINNER = false)
        ∧ (now.timeOfDay + 1 = cfg.dinnerCutoff →
            isEditable cfg now target Meal.DINNER = true)) := by
  refine ⟨?_, ?_, ?_⟩
  · intro h meal
    simp [isEditable, h]
  · intro h meal
    have h2 : dateLt now.date target = false := dateLt_asymm h
    simp [isEditable, h, h2]
  · intro h
    subst h
    simp only [isEditable, dateLt_irrefl, Bool.false_eq_true, if_false]
    refine ⟨by simp, by simp, ?_, ?_, ?_, ?_⟩ <;> intro h <;> simp <;> omega

/-- Witness for C6 at today's date with the default 10:30 / 16:30 cutoffs. -/
theorem isEditable_cutoff_witness :
    ((⟨2026, 2, 12⟩ : Date) = (DateTime.mk ⟨2026, 2, 12⟩ 37800).date)
    ∧ isEditable ⟨37800, 59400⟩ ⟨⟨2026, 2, 12⟩, 37800⟩ ⟨2026, 2, 12⟩ Meal.LUNCH = false :=
  ⟨rfl,
    ((isEditable_cutoff_spec ⟨37800, 59400⟩ ⟨⟨2026, 2, 12⟩, 37800⟩ ⟨2026, 2, 12⟩).2.2
      rfl).2.2.1 rfl⟩

/-- Previous calendar month of a (year, month) pair. -/
def prevMonth (y m : Nat) : Nat × Nat :=
  if m = 1 then (y - 1, 12) else (y, m - 1)

/-- Modelled from the spec: the effective fee-archive settlement day of a
month is the configured `fee_archive_day_of_month`, falling back to the last
calendar day of the month when the configured day does not exist in it
(`archive_meal_fees` / `preview_fee_archive` of `BookingService` are absent
from the source tree; only their callers in `app.py` and their tests exist). -/
def effectiveArchiveDay (cfgDay y m : Nat) : Nat :=
  min cfgDay (daysInMonth y m)

/-- The calendar day after `d`. -/
def nextDate (d : Date) : Date :=
  if d.day < daysInMonth d.year d.month then ⟨d.year, d.month, d.day + 1⟩
  else if d.month < 12 then ⟨d.year, d.month + 1, 1⟩
  else ⟨d.year + 1, 1, 1⟩

/-- Modelled from the spec: `archive_meal_fees(asOfDate)` (reached from
`execute_cron_action` on the `fee_archive` action) runs only when `asOfDate`
is that month's effective settlement day, and then aggregates over the closed
interval from the day after the previous month's effective settlement day up
to `asOfDate`; it returns the interval it ran with, or nothing when skipped. -/
def archiveMealFees (cfgDay : Nat) (asOf : Date) : Option (Date × Date) :=
  if asOf.day = effectiveArchiveDay cfgDay asOf.year asOf.month then
    let pm := prevMonth asOf.year asOf.month
    let prevSettlement : Date := ⟨pm.1, pm.2, effectiveArchiveDay cfgDay pm.1 pm.2⟩
    some (nextDate prevSettlement, asOf)
  else none

/-- C7: the fee-archive job runs exactly when the as-of date's day-of-month
equals the configured day clamped to the month's last calendar day, and in
particular with `fee_archive_day_of_month = 31` evaluated on 2026-02-28 it
runs with the closed interval [2026-02-01, 2026-02-28]; with the default
day 15 on 2026-02-15 it runs with [2026-01-16, 2026-02-15]. -/
theorem archiveMealFees_day_and_interval :
    (∀ (cfgDay : Nat) (asOf : Date),
      (archiveMealFees cfgDay asOf).isSome = true
        ↔ asOf.day = effectiveArchiveDay cfgDay asOf.year asOf.month)
    ∧ archiveMealFees 31 ⟨2026, 2, 28⟩ = some (⟨2026, 2, 1⟩, ⟨2026, 2, 28⟩)
    ∧ archiveMealFees 15 ⟨2026, 2, 15⟩ = some (⟨2026, 1, 16⟩, ⟨2026, 2, 15⟩) := by
  refine ⟨?_, by decide, by decide⟩
  intro cfgDay asOf
  unfold archiveMealFees
  split_ifs with h <;> simp [h]

/-- Typed view of one Bitable `meal_record` row's field map; `none` models a
missing cell (or one the `_to_*` converters reject). -/
structure Fields where
  date : Option Date
  user : Option String
  mealType : Option Meal
  price : Option Int
  status : Option Bool
deriving DecidableEq

/-- One remote record, as returned by `BitableAdapter.list_records`. -/
structure Rec where
  recordId : Nat
  fields : Fields
deriving DecidableEq

/-- The remote `meal_record` table (no uniqueness constraints). -/
abbrev Store := List Rec

/-- One call made against the record store, for tracing which remote
operations a repository method performs. -/
inductive StoreOp
  | list
  | update (recordId : Nat)
  | create
deriving DecidableEq

/-- Bitable update semantics: fields present in the patch replace the stored
value, absent fields are kept. -/
def mergeFields (old patch : Fields) : Fields :=
  { date := patch.date.orElse fun _ => old.date
    user := patch.user.orElse fun _ => old.user
    mealType := patch.mealType.orElse fun _ => old.mealType
    price := patch.price.orElse fun _ => old.price
    status := patch.status.orElse fun _ => old.status }

/-- Whether a record id is present in the store. -/
def recordExists (s : Store) (rid : Nat) : Bool :=
  s.any (fun r => r.recordId == rid)

/-- `BitableAdapter.update_record`: patches the addressed record; `none`
models the `FeishuApiError` raised for a stale or invalid record id. -/
def updateRecord (s : Store) (rid : Nat) (patch : Fields) : Option Store :=
  if recordExists s rid then
    some (s.map fun r =>
      if r.recordId = rid then { r with fields := mergeFields r.fields patch } else r)
  else none

/-- Smallest unused record id, standing in for the remote id generator. -/
def freshId (s : Store) : Nat :=
  s.foldl (fun acc r => max acc r.recordId) 0 + 1

/-- `BitableAdapter.create_record`: appends a new record and returns its id. -/
def createRecord (s : Store) (f : Fields) : Store × Nat :=
  let rid := freshId s
  (s ++ [⟨rid, f⟩], rid)

/-- `MealRecordRow` from `eatbot/services/repositories.py`. -/
structure MealRecordRow where
  record_id : Nat
  target_date : Option Date
  open_id : Option String
  meal_type : Option Meal
  reservation_status : Bool
deriving DecidableEq

/-- Python-dict insertion with move-to-end on key conflict
(`rows_by_key.pop(key)` followed by `rows_by_key[key] = row`). -/
def upsertMoveEnd {K V : Type} [DecidableEq K] (l : List (K × V)) (k : K) (v : V) :
    List (K × V) :=
  l.filter (fun kv => kv.1 ≠ k) ++ [(k, v)]

/-- `BitableRepository._list_meal_rows`: scan the table, keep rows of the
target date (and of the given user when one is supplied), and de-duplicate by
(open id, meal type) with the last store row winning. -/
def listMealRows (s : Store) (targetDate : Date) (openId : Option String) :
    List MealRecordRow :=
  let step := fun (acc : List ((Option String × Option Meal) × MealRecordRow)) (r : Rec) =>
    if r.fields.date ≠ some targetDate then acc
    else
      let recordOpenId := r.fields.user
      let mismatch : Bool := match openId with
        | some oid => recordOpenId ≠ some oid
        | none => false
      if mismatch then acc
      else
        let row : MealRecordRow :=
          ⟨r.recordId, r.fields.date, recordOpenId, r.fields.mealType,
            r.fields.status.getD true⟩
        upsertMoveEnd acc (recordOpenId, r.fields.mealType) row
  (s.foldl step []).map (fun kv => kv.2)

/-- `BitableRepository._meal_payload`: the full write payload. -/
def mealPayload (d : Date) (oid : String) (meal : Meal) (price : Int) (status : Bool) :
    Fields :=
  ⟨some d, some oid, some meal, some price, some status⟩

/-- `BitableRepository._meal_update_payload`: a partial payload holding only
the supplied fields. -/
def mealUpdatePayload (meal : Option Meal) (price : Option Int) (status : Option Bool) :
    Fields :=
  ⟨none, none, meal, price, status⟩

/-- `BitableRepository.upsert_meal_record`: with `prefer_direct`, try a direct
update through the hint and otherwise create; without it, try the hint update
and otherwise scan the date's rows, updating the effective (user, meal) row if
one exists, else creating. The outer `none` models an uncaught remote error;
the trace lists the store calls made. -/
def upsertMealRecord (s : Store) (targetDate : Date) (openId : String) (meal : Meal)
    (price : Int) (recordId : Option Nat) (preferDirect : Bool) :
    Option (Nat × Store × List StoreOp) :=
  let payload := mealPayload targetDate openId meal price true
  let updatePayload := mealUpdatePayload (some meal) (some price) (some true)
  if preferDirect then
    match recordId with
    | some rid =>
      match updateRecord s rid updatePayload with
      | some s1 => some (rid, s1, [.update rid])
      | none =>
        let created := createRecord s payload
        some (created.2, created.1, [.update rid, .create])
    | none =>
      let created := createRecord s payload
      some (created.2, created.1, [.create])
  else
    let scanPath := fun (ops : List StoreOp) =>
      let rows := listMealRows s targetDate (some openId)
      match rows.find? (fun row => row.meal_type == some meal) with
      | some row =>
        match updateRecord s row.record_id payload with
        | some s1 => some (row.record_id, s1, ops ++ [.list, .update row.record_id])
        | none => none
      | none =>
        let created := createRecord s payload
        some (created.2, created.1, ops ++ [.list, .create])
    match recordId with
    | some rid =>
      match updateRecord s rid payload with
      | some s1 => some (rid, s1, [.update rid])
      | none => scanPath [.update rid]
    | none => scanPath []

/-- `BitableRepository.cancel_meal_record`: with `prefer_direct` and no hint,
return immediately; with a hint, patch that record with price 0 and
status false (a failed update is swallowed). Without `prefer_direct`, scan the
date's rows, pick the effective (user, meal) row or fall back to the hinted
id, and write the full cancel payload. -/
def cancelMealRecord (s : Store) (targetDate : Date) (openId : String) (meal : Meal)
    (recordId : Option Nat) (preferDirect : Bool) :
    Option (Option Nat × Store × List StoreOp) :=
  if preferDirect then
    match recordId with
    | none => some (none, s, [])
    | some rid =>
      let payload := mealUpdatePayload none (some 0) (some false)
      match updateRecord s rid payload with
      | none => some (none, s, [.update rid])
      | some s1 => some (some rid, s1, [.update rid])
  else
    let rows := listMealRows s targetDate (some openId)
    let firstMatch := rows.find? (fun row => row.meal_type == some meal)
    let matched : Option MealRecordRow := match firstMatch, recordId with
      | none, some rid => rows.find? (fun row => row.record_id == rid)
      | m, _ => m
    let payload := mealPayload targetDate openId meal 0 false
    match matched with
    | none =>
      match recordId with
      | none => some (none, s, [.list])
      | some rid =>
        match updateRecord s rid payload with
        | none => some (none, s, [.list, .update rid])
        | some s1 => some (some rid, s1, [.list, .update rid])
    | some row =>
      let target := recordId.getD row.record_id
      match updateRecord s target payload with
      | some s1 => some (some target, s1, [.list, .update target])
      | none => none

/-- C9: cancelling with `prefer_direct` and no record-id hint returns null
immediately with no record-store call at all — no scan, no update, no
create — leaving the store unchanged. -/
theorem cancel_preferDirect_no_hint_no_store_calls
    (s : Store) (d : Date) (oid : String) (meal : Meal) :
    cancelMealRecord s d oid meal none true = some (none, s, []) := rfl

/-- Date used by the concrete repository scenarios. -/
def dFeb14 : Date := ⟨2026, 2, 14⟩

/-- Store holding one reserved lunch row at price 20 for user `ou_1`. -/
def upStore : Store := [⟨1, mealPayload dFeb14 "ou_1" Meal.LUNCH 20 true⟩]

/-- C2: evaluating the code at the failing input: upserting a lunch at
price 20 and then cancelling through the returned record id leaves one row
with status false, but its price has been overwritten to 0 — the direct
cancel payload carries `price=Decimal("0")`, contradicting the repository's
own test, which asserts the cancel update writes the status field alone. -/
theorem cancel_direct_overwrites_price :
    upsertMealRecord [] dFeb14 "ou_1" Meal.LUNCH 20 none true
      = some (1, upStore, [StoreOp.create])
    ∧ cancelMealRecord upStore dFeb14 "ou_1" Meal.LUNCH (some 1) true
      = some (some 1,
          [⟨1, ⟨some dFeb14, some "ou_1", some Meal.LUNCH, some 0, some false⟩⟩],
          [StoreOp.update 1])
    ∧ listMealRows
        [⟨1, ⟨some dFeb14, some "ou_1", some Meal.LUNCH, some 0, some false⟩⟩]
        dFeb14 (some "ou_1")
      = [⟨1, some dFeb14, some "ou_1", some Meal.LUNCH, false⟩]
    ∧ (some 0 : Option Int) ≠ some 20 := by
  refine ⟨by decide, by decide, by decide, by decide⟩

/-- C3 counterexample: with `prefer_direct` and no hint, the repository
creates a fresh row directly even though an effective row for the same
(user, meal) key exists on that date — no scan and no update of the effective
row happens, contrary to the claimed scan fallback. -/
theorem upsert_preferDirect_skips_scan_counterexample :
    upsertMealRecord upStore dFeb14 "ou_1" Meal.LUNCH 25 none true
      = some (2, upStore ++ [⟨2, mealPayload dFeb14 "ou_1" Meal.LUNCH 25 true⟩],
          [StoreOp.create])
    ∧ (listMealRows upStore dFeb14 (some "ou_1")).find?
        (fun row => row.meal_type == some Meal.LUNCH)
      = some ⟨1, some dFeb14, some "ou_1", some Meal.LUNCH, true⟩
    ∧ (2 : Nat) ≠ 1 := by
  refine ⟨by decide, by decide, by decide⟩

/-- C3 (amended): with `prefer_direct` and a hint, a direct update with
(meal, price, status=true) is attempted, and on failure — or with no hint — a
new row is created directly with no scan; the scan-update-else-create
fallback runs only when `prefer_direct` is not set. -/
theorem upsert_write_protocol_amended
    (s : Store) (d : Date) (oid : String) (meal : Meal) (price : Int) :
    (∀ rid s1,
      updateRecord s rid (mealUpdatePayload (some meal) (some price) (some true)) = some s1 →
      upsertMealRecord s d oid meal price (some rid) true
        = some (rid, s1, [StoreOp.update rid]))
    ∧ (∀ rid,
      updateRecord s rid (mealUpdatePayload (some meal) (some price) (some true)) = none →
      upsertMealRecord s d oid meal price (some rid) true
        = some ((createRecord s (mealPayload d oid meal price true)).2,
            (createRecord s (mealPayload d oid meal price true)).1,
            [StoreOp.update rid, StoreOp.create]))
    ∧ (upsertMealRecord s d oid meal price none true
        = some ((createRecord s (mealPayload d oid meal price true)).2,
            (createRecord s (mealPayload d oid meal price true)).1, [StoreOp.create]))
    ∧ (∀ row s1,
      (listMealRows s d (some oid)).find? (fun r => r.meal_type == some meal) = some row →
      updateRecord s row.record_id (mealPayload d oid meal price true) = some s1 →
      upsertMealRecord s d oid meal price none false
        = some (row.record_id, s1, [StoreOp.list, StoreOp.update row.record_id]))
    ∧ ((listMealRows s d (some oid)).find? (fun r => r.meal_type == some meal) = none →
      upsertMealRecord s d oid meal price none false
        = some ((createRecord s (mealPayload d oid meal price true)).2,
            (createRecord s (mealPayload d oid meal price true)).1,
            [StoreOp.list, StoreOp.create])) := by
  refine ⟨?_, ?_, ?_, ?_, ?_⟩
  · intro rid s1 h
    simp [upsertMealRecord, h]
  · intro rid h
    simp [upsertMealRecord, h]
  · rfl
  · intro row s1 hrow hupd
    simp [upsertMealRecord, hrow, hupd]
  · intro hrow
    simp [upsertMealRecord, hrow]

/-- Witness for the amended C3 upsert protocol at a concrete store. -/
theorem upsert_write_protocol_amended_witness :
    updateRecord upStore 1 (mealUpdatePayload (some Meal.LUNCH) (some 25) (some true))
      = some [⟨1, ⟨some dFeb14, some "ou_1", some Meal.LUNCH, some 25, some true⟩⟩]
    ∧ upsertMealRecord upStore dFeb14 "ou_1" Meal.LUNCH 25 (some 1) true
      = some (1, [⟨1, ⟨some dFeb14, some "ou_1", some Meal.LUNCH, some 25, some true⟩⟩],
          [StoreOp.update 1]) :=
  ⟨by decide,
    (upsert_write_protocol_amended upStore dFeb14 "ou_1" Meal.LUNCH 25).1 1
      [⟨1, ⟨some dFeb14, some "ou_1", some Meal.LUNCH, some 25, some true⟩⟩] (by decide)⟩

/-- The cutoff-violation message of `BookingService._apply_selection`, naming
the offending meal. -/
def cutoffMessage (meal : Meal) : String :=
  meal.value ++ " 已过截止时间，如有特殊情况请联系管理员人工处理"

/-- `BookingService._apply_selection`: first check every changed meal against
the edit cutoff (raising on the first violation), then walk the changed meals
again, upserting selected ones and cancelling deselected ones with
`prefer_direct`. The triple returned is the outcome (an `error` models a
raised exception), the store as left behind, and the trace of store calls;
the dead `error` arms under the write loop model uncaught remote errors
surfaced as the generic failure toast. -/
def applySelection (cfg : ScheduleConfig) (now : DateTime) (targetDate : Date)
    (openId : String) (changed : List Meal) (selected : Finset Meal)
    (prices : Meal → Option Int) (recordIds : Meal → Option Nat) (s : Store) :
    Except String (Meal → Option Nat) × Store × List StoreOp :=
  match changed.find? (fun m => !(isEditable cfg now targetDate m)) with
  | some m => (.error (cutoffMessage m), s, [])
  | none =>
    changed.foldl
      (fun acc m =>
        match acc with
        | (.error e, st, ops) => (.error e, st, ops)
        | (.ok ids, st, ops) =>
          if m ∈ selected then
            match prices m with
            | none => (.error (m.value ++ " 单价缺失"), st, ops)
            | some p =>
              match upsertMealRecord st targetDate openId m p (ids m) true with
              | some (rid, st1, ops1) =>
                (.ok (fun m2 => if m2 = m then some rid else ids m2), st1, ops ++ ops1)
              | none => (.error "预约更新失败", st, ops)
          else
            match cancelMealRecord st targetDate openId m (ids m) true with
            | some (kept, st1, ops1) =>
              (.ok (match kept with
                | some rid => fun m2 => if m2 = m then some rid else ids m2
                | none => ids), st1, ops ++ ops1)
            | none => (.error "预约更新失败", st, ops))
      (.ok recordIds, s, [])

/-- C1: if any changed meal fails the edit-cutoff check, the whole action
aborts with the error naming that meal, the store is untouched and no store
call (neither upsert nor cancel) is made — the cutoff check over all changed
meals runs strictly before the first write. -/
theorem applySelection_cutoff_atomic (cfg : ScheduleConfig) (now : DateTime)
    (targetDate : Date) (openId : String) (changed : List Meal) (selected : Finset Meal)
    (prices : Meal → Option Int) (recordIds : Meal → Option Nat) (s : Store)
    (h : ∃ m ∈ changed, isEditable cfg now targetDate m = false) :
    ∃ m, m ∈ changed ∧ isEditable cfg now targetDate m = false ∧
      applySelection cfg now targetDate openId changed selected prices recordIds s
        = (.error (cutoffMessage m), s, []) := by
  obtain ⟨m0, hm0, hed⟩ := h
  have hfind : (changed.find? (fun m => !(isEditable cfg now targetDate m))).isSome := by
    rw [List.find?_isSome]
    exact ⟨m0, hm0, by simp [hed]⟩
  obtain ⟨m, hfm⟩ := Option.isSome_iff_exists.mp hfind
  refine ⟨m, List.mem_of_find?_eq_some hfm, ?_, ?_⟩
  · have := List.find?_some hfm
    simpa using this
  · unfold applySelection
    rw [hfm]

/-- Witness for C1: at the lunch cutoff instant, a toggle changing LUNCH
aborts with the lunch cutoff error and performs no write. -/
theorem applySelection_cutoff_atomic_witness :
    (∃ m ∈ [Meal.LUNCH],
      isEditable ⟨37800, 59400⟩ ⟨⟨2026, 2, 12⟩, 37800⟩ ⟨2026, 2, 12⟩ m = false)
    ∧ (∃ m, m ∈ [Meal.LUNCH]
        ∧ isEditable ⟨37800, 59400⟩ ⟨⟨2026, 2, 12⟩, 37800⟩ ⟨2026, 2, 12⟩ m = false
        ∧ applySelection ⟨37800, 59400⟩ ⟨⟨2026, 2, 12⟩, 37800⟩ ⟨2026, 2, 12⟩ "ou_1"
            [Meal.LUNCH] ∅ (fun _ => some 20) (fun _ => none) []
          = (.error (cutoffMessage m), [], [])) :=
  ⟨⟨Meal.LUNCH, by decide, by decide⟩,
    applySelection_cutoff_atomic ⟨37800, 59400⟩ ⟨⟨2026, 2, 12⟩, 37800⟩ ⟨2026, 2, 12⟩
      "ou_1" [Meal.LUNCH] ∅ (fun _ => some 20) (fun _ => none) []
      ⟨Meal.LUNCH, by decide, by decide⟩⟩

/-- The `submit_reservation` slice of `BookingService._process_action`: start
from the selection derived from the user's rows, replace it with the parsed
form set intersected with `allowed` only when that parsed set is truthy
(non-empty), then intersect with `allowed` once more. -/
def submitSelection (selectedBefore allowed : Finset Meal)
    (formMeals : Option (List String)) : Finset Meal :=
  let formSelected := parseMeals formMeals
  let selected := if formSelected = ∅ then selectedBefore else formSelected ∩ allowed
  selected ∩ allowed

/-- C4 counterexample: submitting a form with nothing selected parses to the
empty set, and the resulting selection keeps the previously selected meal
instead of becoming empty. -/
theorem submit_empty_form_keeps_selection_counterexample :
    parseMeals (some []) = ∅
    ∧ submitSelection {Meal.LUNCH} {Meal.LUNCH, Meal.DINNER} (some []) = {Meal.LUNCH}
    ∧ ({Meal.LUNCH} : Finset Meal) ≠ ∅ := by
  refine ⟨by decide, by decide, by decide⟩

/-- C4 (amended): `submit_reservation` replaces the selection with the parsed
form set intersected with `allowed` only when the parsed set is non-empty;
an empty parsed form set leaves the prior selection (intersected with
`allowed`) unchanged, so nothing gets deselected. -/
theorem submit_replaces_only_when_form_nonempty (before allowed : Finset Meal)
    (form : Option (List String)) :
    (parseMeals form ≠ ∅ →
      submitSelection before allowed form = parseMeals form ∩ allowed)
    ∧ (parseMeals form = ∅ →
      submitSelection before allowed form = before ∩ allowed) := by
  constructor
  · intro h
    simp [submitSelection, h, Finset.inter_assoc]
  · intro h
    simp [submitSelection, h]

/-- Witness for the amended C4 at a concrete non-empty form submission. -/
theorem submit_replaces_only_when_form_nonempty_witness :
    parseMeals (some ["午餐"]) ≠ ∅
    ∧ submitSelection ∅ {Meal.LUNCH, Meal.DINNER} (some ["午餐"])
        = parseMeals (some ["午餐"]) ∩ {Meal.LUNCH, Meal.DINNER} :=
  ⟨by decide,
    (submit_replaces_only_when_form_nonempty ∅ {Meal.LUNCH, Meal.DINNER}
      (some ["午餐"])).1 (by decide)⟩

/-- Typed view of one `meal_schedule` row's field map; `none` models a
missing cell or one `_to_date` cannot parse. -/
structure ScheduleRec where
  startDate : Option Date
  endDate : Option Date
  meals : Option (List String)
  remark : Option String
deriving DecidableEq

/-- Loop body of `BitableRepository.list_schedule_rules`: skip the record if
either date is missing or unparsable or the end date precedes the start date,
else build the rule. -/
def parseScheduleRec (r : ScheduleRec) : Option MealScheduleRule :=
  match r.startDate, r.endDate with
  | some sd, some ed =>
    if dateLt ed sd then none
    else some ⟨sd, ed, parseMeals r.meals, r.remark.getD ""⟩
  | _, _ => none

/-- `BitableRepository.list_schedule_rules` over the raw table rows. -/
def listScheduleRules (recs : List ScheduleRec) : List MealScheduleRule :=
  recs.filterMap parseScheduleRec

/-- C8: every rule returned by `list_schedule_rules` satisfies
`start_date ≤ end_date`, and a row whose end date precedes its start date, or
whose start or end date cannot be parsed, is silently dropped — appending such
a row to the store leaves the result unchanged rather than raising. -/
theorem listScheduleRules_dates_ordered (recs : List ScheduleRec) :
    (∀ rule ∈ listScheduleRules recs, dateLe rule.start_date rule.end_date = true)
    ∧ (∀ bad : ScheduleRec,
        (bad.startDate = none ∨ bad.endDate = none
          ∨ ∃ sd ed, bad.startDate = some sd ∧ bad.endDate = some ed
              ∧ dateLt ed sd = true) →
        listScheduleRules (recs ++ [bad]) = listScheduleRules recs) := by
  constructor
  · intro rule hr
    rw [listScheduleRules, List.mem_filterMap] at hr
    obtain ⟨r, _, hmap⟩ := hr
    unfold parseScheduleRec at hmap
    cases hs : r.startDate with
    | none => rw [hs] at hmap; simp at hmap
    | some sd =>
      cases he : r.endDate with
      | none => rw [hs, he] at hmap; simp at hmap
      | some ed =>
        rw [hs, he] at hmap
        by_cases hlt : dateLt ed sd = true
        · simp [hlt] at hmap
        · have hfalse : dateLt ed sd = false := by
            cases hv : dateLt ed sd
            · rfl
            · exact absurd hv hlt
          simp [hfalse] at hmap
          have := dateLe_of_not_dateLt hfalse
          rw [← hmap]
          exact this
  · intro bad hbad
    unfold listScheduleRules
    rw [List.filterMap_append]
    have hnone : parseScheduleRec bad = none := by
      unfold parseScheduleRec
      rcases hbad with h | h | ⟨sd, ed, hsd, hed, hlt⟩
      · rw [h]
      · rw [h]
        cases bad.startDate <;> rfl
      · rw [hsd, hed]
        simp [hlt]
    simp [hnone]

/-- Witness for C8 at a concrete store with one good and one inverted rule. -/
theorem listScheduleRules_dates_ordered_witness :
    (⟨⟨2026, 2, 1⟩, ⟨2026, 2, 28⟩, parseMeals (some ["午餐"]), ""⟩ : MealScheduleRule)
      ∈ listScheduleRules
          [⟨some ⟨2026, 2, 1⟩, some ⟨2026, 2, 28⟩, some ["午餐"], none⟩]
    ∧ dateLe (⟨2026, 2, 1⟩ : Date) ⟨2026, 2, 28⟩ = true
    ∧ listScheduleRules
        ([⟨some ⟨2026, 2, 1⟩, some ⟨2026, 2, 28⟩, some ["午餐"], none⟩]
          ++ [⟨some ⟨2026, 3, 10⟩, some ⟨2026, 3, 1⟩, some ["午餐"], none⟩])
      = listScheduleRules
          [⟨some ⟨2026, 2, 1⟩, some ⟨2026, 2, 28⟩, some ["午餐"], none⟩] :=
  ⟨by decide,
    (listScheduleRules_dates_ordered
        [⟨some ⟨2026, 2, 1⟩, some ⟨2026, 2, 28⟩, some ["午餐"], none⟩]).1
      ⟨⟨2026, 2, 1⟩, ⟨2026, 2, 28⟩, parseMeals (some ["午餐"]), ""⟩ (by decide),
    (listScheduleRules_dates_ordered
        [⟨some ⟨2026, 2, 1⟩, some ⟨2026, 2, 28⟩, some ["午餐"], none⟩]).2
      ⟨some ⟨2026, 3, 10⟩, some ⟨2026, 3, 1⟩, some ["午餐"], none⟩
      (Or.inr (Or.inr ⟨⟨2026, 3, 10⟩, ⟨2026, 3, 1⟩, rfl, rfl, by decide⟩))⟩

/-- First element of a Bitable person cell, carrying the open id and the
person name when present. -/
structure PersonCell where
  id : Option String
  name : Option String
deriving DecidableEq

/-- Typed view of one `user_config` row's field map. -/
structure UserRec where
  person : Option PersonCell
  displayNameCell : Option String
  enabled : Bool
  lunchPrice : Int
  dinnerPrice : Int
  mealPreference : Option (List String)
deriving DecidableEq

/-- `UserProfile` from `eatbot/domain/models.py`. -/
structure UserProfile where
  open_id : String
  display_name : String
  enabled : Bool
  lunch_price : Int
  dinner_price : Int
  meal_preferences : Finset Meal
deriving DecidableEq

/-- Loop body of `BitableRepository.list_user_profiles`: skip the record when
no open id can be extracted from the person cell, otherwise build the profile
with the display-name fallback chain (display-name cell, then person name,
then the open id itself). -/
def buildUserProfile (r : UserRec) : Option UserProfile :=
  match r.person.bind (fun p => p.id) with
  | none => none
  | some openId =>
    let displayName :=
      ((r.displayNameCell).orElse (fun _ => r.person.bind fun p => p.name)).getD openId
    some ⟨openId, displayName, r.enabled, r.lunchPrice, r.dinnerPrice,
      parseMeals r.mealPreference⟩

/-- One iteration of the `list_user_profiles` loop over `users_by_open_id`. -/
def userFoldStep (acc : List (String × UserProfile)) (r : UserRec) :
    List (String × UserProfile) :=
  match buildUserProfile r with
  | none => acc
  | some u => upsertMoveEnd acc u.open_id u

/-- The `list_user_profiles` loop with an explicit accumulator. -/
def userFold (recs : List UserRec) (acc : List (String × UserProfile)) :
    List (String × UserProfile) :=
  recs.foldl userFoldStep acc

/-- `BitableRepository.list_user_profiles`: the values of `users_by_open_id`
after folding all roster rows. -/
def listUserProfiles (recs : List UserRec) : List UserProfile :=
  (userFold recs []).map (fun kv => kv.2)

theorem upsertMoveEnd_filter_self {K V : Type} [DecidableEq K]
    (l : List (K × V)) (k : K) (v : V) :
    (upsertMoveEnd l k v).filter (fun kv => kv.1 == k) = [(k, v)] := by
  unfold upsertMoveEnd
  rw [List.filter_append]
  have h1 : (l.filter fun kv => kv.1 ≠ k).filter (fun kv => kv.1 == k) = [] := by
    rw [List.filter_eq_nil_iff]
    intro kv hkv
    rw [List.mem_filter] at hkv
    have := hkv.2
    simp at this ⊢
    exact this
  rw [h1]
  simp

theorem upsertMoveEnd_filter_other {K V : Type} [DecidableEq K]
    (l : List (K × V)) (k k2 : K) (v : V) (h : k ≠ k2) :
    (upsertMoveEnd l k v).filter (fun kv => kv.1 == k2)
      = l.filter (fun kv => kv.1 == k2) := by
  unfold upsertMoveEnd
  rw [List.filter_append]
  have h2 : List.filter (fun kv => kv.1 == k2) [(k, v)] = [] := by
    simp [h]
  rw [h2, List.append_nil, List.filter_filter]
  apply List.filter_congr
  intro kv _
  by_cases hk2 : kv.1 = k2
  · subst hk2
    simp [Ne.symm h]
  · simp [hk2]

theorem getLast?_cons_eq {α : Type} (a : α) (l : List α) :
    (a :: l).getLast? = some (l.getLast?.getD a) := by
  induction l generalizing a with
  | nil => rfl
  | cons b t ih =>
    rw [List.getLast?_cons_cons, ih b]
    simp

theorem userFold_filter_key (oid : String) :
    ∀ (recs : List UserRec) (acc : List (String × UserProfile)),
      (userFold recs acc).filter (fun kv => kv.1 == oid)
        = (match ((recs.filterMap buildUserProfile).filter
              (fun u => u.open_id == oid)).getLast? with
          | some u => [(oid, u)]
          | none => acc.filter (fun kv => kv.1 == oid)) := by
  intro recs
  induction recs with
  | nil => intro acc; rfl
  | cons r tl ih =>
    intro acc
    rw [show userFold (r :: tl) acc = userFold tl (userFoldStep acc r) from rfl]
    cases hb : buildUserProfile r with
    | none =>
      rw [show userFoldStep acc r = acc from by simp [userFoldStep, hb]]
      rw [ih acc, List.filterMap_cons_none hb]
    | some u =>
      rw [show userFoldStep acc r = upsertMoveEnd acc u.open_id u from by
        simp [userFoldStep, hb]]
      rw [ih (upsertMoveEnd acc u.open_id u), List.filterMap_cons_some hb]
      by_cases hk : u.open_id = oid
      · rw [List.filter_cons_of_pos (by simp [hk])]
        rw [getLast?_cons_eq]
        cases hrest : ((tl.filterMap buildUserProfile).filter
            (fun u2 => u2.open_id == oid)).getLast? with
        | some x => simp [hrest]
        | none =>
          simp only [hrest, Option.getD_none]
          rw [← hk]
          exact upsertMoveEnd_filter_self acc u.open_id u
      · rw [List.filter_cons_of_neg (by simp [hk])]
        cases hrest : ((tl.filterMap buildUserProfile).filter
            (fun u2 => u2.open_id == oid)).getLast? with
        | some x => simp [hrest]
        | none =>
          simp only [hrest]
          exact upsertMoveEnd_filter_other acc u.open_id oid u hk

theorem upsertMoveEnd_keys_nodup {K V : Type} [DecidableEq K]
    (l : List (K × V)) (k : K) (v : V)
    (h : (l.map (fun kv => kv.1)).Nodup) :
    ((upsertMoveEnd l k v).map (fun kv => kv.1)).Nodup := by
  unfold upsertMoveEnd
  rw [List.map_append]
  apply List.Nodup.append
  · exact ((List.filter_sublist l).map (fun kv => kv.1)).nodup h
  · simp
  · intro a ha hb
    simp at hb
    subst hb
    rw [List.mem_map] at ha
    obtain ⟨kv, hkv, hfst⟩ := ha
    rw [List.mem_filter] at hkv
    have := hkv.2
    simp at this
    exact this hfst

theorem userFold_keys_nodup :
    ∀ (recs : List UserRec) (acc : List (String × UserProfile)),
      ((acc.map (fun kv => kv.1)).Nodup) →
      ((userFold recs acc).map (fun kv => kv.1)).Nodup := by
  intro recs
  induction recs with
  | nil => intro acc h; exact h
  | cons r tl ih =>
    intro acc h
    rw [show userFold (r :: tl) acc = userFold tl (userFoldStep acc r) from rfl]
    apply ih
    unfold userFoldStep
    cases hb : buildUserProfile r with
    | none => exact h
    | some u => exact upsertMoveEnd_keys_nodup acc u.open_id u h

theorem userFold_key_inv :
    ∀ (recs : List UserRec) (acc : List (String × UserProfile)),
      (∀ kv ∈ acc, kv.1 = kv.2.open_id) →
      ∀ kv ∈ userFold recs acc, kv.1 = kv.2.open_id := by
  intro recs
  induction recs with
  | nil => intro acc h; exact h
  | cons r tl ih =>
    intro acc h
    rw [show userFold (r :: tl) acc = userFold tl (userFoldStep acc r) from rfl]
    apply ih
    unfold userFoldStep
    cases hb : buildUserProfile r with
    | none => exact h
    | some u =>
      intro kv hkv
      unfold upsertMoveEnd at hkv
      rw [List.mem_append] at hkv
      cases hkv with
      | inl hmem => exact h kv (List.mem_of_mem_filter hmem)
      | inr hmem =>
        simp at hmem
        rw [hmem]

/-- C10: `list_user_profiles` returns at most one profile per open id (the
returned open ids are pairwise distinct), and the profile it returns for an
open id is exactly the one built from the last roster row in store order that
resolves to that open id; rows from which no open id can be extracted never
contribute. -/
theorem listUserProfiles_last_row_wins (recs : List UserRec) (oid : String) :
    ((listUserProfiles recs).map (fun u => u.open_id)).Nodup
    ∧ (listUserProfiles recs).filter (fun u => u.open_id == oid)
        = (((recs.filterMap buildUserProfile).filter
            (fun u => u.open_id == oid)).getLast?).toList := by
  have hinv := userFold_key_inv recs [] (by intro kv h; cases h)
  constructor
  · unfold listUserProfiles
    rw [List.map_map]
    have hmap : (userFold recs []).map ((fun u => u.open_id) ∘ (fun kv => kv.2))
        = (userFold recs []).map (fun kv => kv.1) := by
      apply List.map_congr_left
      intro kv hkv
      exact (hinv kv hkv).symm
    rw [hmap]
    exact userFold_keys_nodup recs [] (by simp)
  · unfold listUserProfiles
    rw [List.filter_map]
    have hcong : (userFold recs []).filter
          ((fun u => u.open_id == oid) ∘ (fun kv => kv.2))
        = (userFold recs []).filter (fun kv => kv.1 == oid) := by
      apply List.filter_congr
      intro kv hkv
      rw [Function.comp_apply, ← hinv kv hkv]
    rw [hcong, userFold_filter_key oid recs []]
    cases hrest : ((recs.filterMap buildUserProfile).filter
        (fun u => u.open_id == oid)).getLast? with
    | some x => simp
    | none => simp

end EatBot
